import Mathlib

/-!
Verification of the queue-benchmark driver (`src/bin/bench.rs`) of the
crossbeam benchmark repository.

The file embeds, as pure Lean functions:
  * the tri-state pop result of the single-consumer queue and the
    `Option`-returning adapter that loops on `Inconsistent`;
  * the blocking `Mutex<VecDeque<T>>` adapter (with an explicit poisoning
    flag so that the `unwrap` on `lock()` is modelled faithfully);
  * sequential models of the external queue backends (`MsQueue`,
    `MpscQueue`), whose implementations live outside this repository;
  * the benchmark constants, the `nanos` conversion and the consumer loop
    of `bench_queue_mpsc`.
-/

namespace CrossbeamBench

/-- Benchmark constant `COUNT: u64 = 1000000` (`bench.rs`). -/
def COUNT : Nat := 1000000

/-- Benchmark constant `THREADS: u64 = 2` (`bench.rs`). -/
def THREADS : Nat := 2

/-- The tri-state result of `extra_impls::mpsc_queue::Queue::pop`:
`Data(value)`, `Empty`, or `Inconsistent` (a concurrent push is mid-flight). -/
inductive PopResult (T : Type) where
  | Data (v : T)
  | Empty
  | Inconsistent
deriving DecidableEq, Repr

/-- `impl<T> Queue<T> for MpscQueue<T>::pop` (`bench.rs`): loops on the
underlying tri-state pop, skipping `Inconsistent`, until it sees `Data(v)`
(returning `Some(v)`) or `Empty` (returning `None`).  The successive results
the underlying tri-state pop yields are given as a list; an exhausted list
means the underlying pop kept answering `Inconsistent` for the whole trace,
in which case the loop has not returned yet, modelled as `none`. -/
def mpscOptionPop {T : Type} : List (PopResult T) → Option (Option T)
  | [] => none
  | PopResult.Data v :: _ => some (some v)
  | PopResult.Empty :: _ => some none
  | PopResult.Inconsistent :: rest => mpscOptionPop rest

/-- Whether a tri-state result is decisive (not `Inconsistent`). -/
def PopResult.isDecisive {T : Type} : PopResult T → Bool
  | PopResult.Inconsistent => false
  | _ => true

/-- The first non-`Inconsistent` result of a trace of tri-state pops. -/
def firstDecisive {T : Type} (rs : List (PopResult T)) : Option (PopResult T) :=
  rs.find? PopResult.isDecisive

/-- The contents of a `VecDeque<T>`, front first. -/
def push_back {T : Type} (q : List T) (v : T) : List T := q ++ [v]

/-- `VecDeque::pop_front`: the removed front element (if any) and the rest. -/
def pop_front {T : Type} (q : List T) : Option T × List T :=
  match q with
  | [] => (none, [])
  | x :: xs => (some x, xs)

/-- A `Mutex<VecDeque<T>>`: the guarded contents plus the poisoning flag
(set when a thread panicked while holding the lock). -/
structure MutexVecDeque (T : Type) where
  poisoned : Bool
  data : List T
deriving DecidableEq, Repr

/-- `Mutex::new(VecDeque::new())`: an unpoisoned, empty queue. -/
def MutexVecDeque.new (T : Type) : MutexVecDeque T := ⟨false, []⟩

/-- `Mutex::lock`: the guarded data, or a poison error. -/
def MutexVecDeque.lock {T : Type} (m : MutexVecDeque T) : Except Unit (List T) :=
  if m.poisoned then Except.error () else Except.ok m.data

/-- Blocking-adapter push, `self.lock().unwrap().push_back(t)` (`bench.rs`);
`none` models the panic of `unwrap` on a poisoned lock. -/
def blockingPush {T : Type} (m : MutexVecDeque T) (v : T) : Option (MutexVecDeque T) :=
  match m.lock with
  | Except.error _ => none
  | Except.ok d => some ⟨m.poisoned, push_back d v⟩

/-- Blocking-adapter pop, `self.lock().unwrap().pop_front()` (`bench.rs`);
`none` models the panic of `unwrap` on a poisoned lock. -/
def blockingPop {T : Type} (m : MutexVecDeque T) : Option (Option T × MutexVecDeque T) :=
  match m.lock with
  | Except.error _ => none
  | Except.ok d => some ((pop_front d).1, ⟨m.poisoned, (pop_front d).2⟩)

/-- Push a whole list of values in order (left to right). -/
def pushAll {T : Type} (q : List T) (vs : List T) : List T :=
  vs.foldl push_back q

/-- Pop `n` times in a row, collecting the results in order. -/
def popN {T : Type} : Nat → List T → List (Option T) × List T
  | 0, q => ([], q)
  | n + 1, q =>
    let r := pop_front q
    let rest := popN n r.2
    (r.1 :: rest.1, rest.2)

/-- Modelled from the spec: `crossbeam::sync::MsQueue` (the Michael-Scott
lock-free multi-producer multi-consumer queue), whose implementation is not
part of this repository.  In the sequential view its state is the chain of
linked, not-yet-removed values, oldest first; `new()` is the empty chain. -/
def MsQueue.new (T : Type) : List T := []

/-- Modelled from the spec: `MsQueue::push` links the value at the tail of
the chain. -/
def MsQueue.push {T : Type} (q : List T) (v : T) : List T := q ++ [v]

/-- Modelled from the spec: `MsQueue::pop` removes and returns the oldest
linked value, or returns `none` when no value is currently linked. -/
def MsQueue.pop {T : Type} (q : List T) : Option T × List T :=
  match q with
  | [] => (none, [])
  | x :: xs => (some x, xs)

/-- Modelled from the spec: `extra_impls::mpsc_queue::Queue::new`, the
single-consumer queue, whose implementation is not part of this repository.
In the sequential view its state is the chain of linked, not-yet-removed
values, oldest first (the stub node is implicit); `new()` is the empty chain. -/
def MpscQueue.new (T : Type) : List T := []

/-- Modelled from the spec: `MpscQueue::push` links the value at the tail. -/
def MpscQueue.push {T : Type} (q : List T) (v : T) : List T := q ++ [v]

/-- Modelled from the spec: the tri-state `MpscQueue::pop`.  With no push
mid-flight (the sequential view), it returns `Data` of the oldest linked
value, or `Empty` when no value is linked; `Inconsistent` cannot arise. -/
def MpscQueue.pop {T : Type} (q : List T) : PopResult T × List T :=
  match q with
  | [] => (PopResult.Empty, [])
  | x :: xs => (PopResult.Data x, xs)

/-- The consumer loop of `bench_queue_mpsc` (`bench.rs`):
`while count < target { if q.pop().is_some() { count += 1 } }`.
`rs` lists the successive results of `q.pop()`; the function returns the
number of loop iterations executed before exit, or `none` if the trace ends
before the target is reached (the loop would still be polling). -/
def consumerLoop {T : Type} (target : Nat) (rs : List (Option T)) (count : Nat) : Option Nat :=
  if target ≤ count then some 0
  else
    match rs with
    | [] => none
    | r :: rest =>
      (consumerLoop target rest (count + if r.isSome then 1 else 0)).map (· + 1)

/-- The number of `Some` results in a trace of `Option` pops. -/
def countSome {T : Type} (rs : List (Option T)) : Nat :=
  (rs.filter Option.isSome).length

/-- A `std::time::Duration`: whole seconds and the sub-second nanoseconds. -/
structure Duration where
  secs : Nat
  subsec_nanos : Nat
deriving DecidableEq, Repr

/-- `nanos` (`bench.rs`):
`d.as_secs() as f64 * 1000000000f64 + (d.subsec_nanos() as f64)`, the `f64`
arithmetic modelled as exact rational arithmetic. -/
def nanos (d : Duration) : ℚ :=
  (d.secs : ℚ) * 1000000000 + (d.subsec_nanos : ℚ)

/-- The value each `bench_*` function returns (`bench.rs`):
`nanos(d) / ((COUNT * THREADS) as f64)`. -/
def benchReport (d : Duration) : ℚ :=
  nanos d / ((COUNT * THREADS : Nat) : ℚ)

/-- The values one producer task of `bench_queue_mpsc` pushes, in order:
`for x in 0..COUNT { qr.push(x) }` (`bench.rs`). -/
def producerPushes : List Nat := List.range COUNT

/-- The per-task push lists of `bench_queue_mpsc`: `THREADS` producer tasks
are spawned, each running the same push loop (`bench.rs`). -/
def allProducerPushes : List (List Nat) := List.replicate THREADS producerPushes

/-! ## Helper lemmas -/

theorem pushAll_nil {T : Type} (q : List T) : pushAll q [] = q := rfl

theorem pushAll_cons {T : Type} (q : List T) (v : T) (vs : List T) :
    pushAll q (v :: vs) = pushAll (q ++ [v]) vs := rfl

theorem pushAll_eq_append {T : Type} (vs : List T) :
    ∀ q : List T, pushAll q vs = q ++ vs := by
  induction vs with
  | nil => intro q; simp [pushAll_nil]
  | cons v vs ih => intro q; rw [pushAll_cons, ih]; simp

theorem popN_self {T : Type} (q : List T) :
    popN q.length q = (q.map some, []) := by
  induction q with
  | nil => rfl
  | cons x xs ih => simp [popN, pop_front, ih]

theorem countSome_nil {T : Type} : countSome ([] : List (Option T)) = 0 := rfl

theorem countSome_cons {T : Type} (r : Option T) (l : List (Option T)) :
    countSome (r :: l) = (if r.isSome then 1 else 0) + countSome l := by
  cases r
  · simp [countSome, List.filter_cons]
  · simp [countSome, List.filter_cons]
    omega

/-! ## Claim theorems -/

/-- C1: the `Option`-returning pop adapter for the single-consumer queue
loops past every `Inconsistent` result of the underlying tri-state pop; it
returns `Some v` exactly when the first non-`Inconsistent` result of the
trace is `Data v`, and `None` exactly when it is `Empty`, so `Inconsistent`
is never surfaced to the caller as "no value". -/
theorem mpsc_option_pop_first_decisive {T : Type} (rs : List (PopResult T)) :
    (∀ v : T, mpscOptionPop rs = some (some v) ↔ firstDecisive rs = some (PopResult.Data v)) ∧
    (mpscOptionPop rs = some none ↔ firstDecisive rs = some PopResult.Empty) := by
  induction rs with
  | nil => simp [mpscOptionPop, firstDecisive]
  | cons r rest ih =>
    cases r
    · simp [mpscOptionPop, firstDecisive, List.find?, PopResult.isDecisive]
    · simp [mpscOptionPop, firstDecisive, List.find?, PopResult.isDecisive]
    · simp only [mpscOptionPop, firstDecisive, List.find?, PopResult.isDecisive] at ih ⊢
      exact ih

/-- C2: the blocking queue adapter's `push` acquires the lock and appends at
the back, its `pop` acquires the lock and removes the front element when
present, and a sequence of `N` pushes on an empty queue followed by `N` pops
returns the values in push order (FIFO). -/
theorem blocking_adapter_fifo {T : Type} (vs : List T) :
    (∀ (m : MutexVecDeque T) (v : T), m.poisoned = false →
      blockingPush m v = some ⟨false, m.data ++ [v]⟩) ∧
    (∀ m : MutexVecDeque T, m.poisoned = false →
      blockingPop m = some (m.data.head?, ⟨false, m.data.tail⟩)) ∧
    (popN vs.length (pushAll [] vs)).1 = vs.map some := by
  refine ⟨?_, ?_, ?_⟩
  · intro m v h
    simp [blockingPush, MutexVecDeque.lock, h, push_back]
  · intro m h
    cases hd : m.data <;> simp [blockingPop, MutexVecDeque.lock, h, hd, pop_front]
  · rw [pushAll_eq_append, List.nil_append, popN_self]

/-- Witness for C2 at a concrete queue and value list. -/
theorem blocking_adapter_fifo_witness :
    (MutexVecDeque.new Nat).poisoned = false ∧
    blockingPush (MutexVecDeque.new Nat) 5 = some ⟨false, [5]⟩ ∧
    (popN 2 (pushAll [] [1, 2])).1 = [some 1, some 2] := by
  refine ⟨rfl, ?_, ?_⟩
  · have h := (blocking_adapter_fifo ([] : List Nat)).1 (MutexVecDeque.new Nat) 5 rfl
    simpa [MutexVecDeque.new] using h
  · have h := (blocking_adapter_fifo ([1, 2] : List Nat)).2.2
    simpa using h

/-- C3: popping a newly constructed, never-pushed queue deterministically
returns "no value": `None` for the blocking adapter and the multi-consumer
queue (and for the single-consumer queue seen through the `Option` adapter),
and `Empty` for the tri-state single-consumer pop. -/
theorem pop_on_new_queue (T : Type) :
    blockingPop (MutexVecDeque.new T) = some (none, MutexVecDeque.new T) ∧
    MsQueue.pop (MsQueue.new T) = (none, MsQueue.new T) ∧
    MpscQueue.pop (MpscQueue.new T) = (PopResult.Empty, MpscQueue.new T) ∧
    mpscOptionPop [(MpscQueue.pop (MpscQueue.new T)).1] = some none :=
  ⟨rfl, rfl, rfl, rfl⟩

/-- C4: behind the capability interface, `push` returns unit and never
fails — on every state it links the value at the back with no capacity
bound (and the blocking adapter's push succeeds whenever the lock is not
poisoned) — and `pop` returns the oldest linked, not-yet-removed value, or
empty when no value is linked (the state after pushing `vs` into a new
queue is exactly `vs` in push order, and pop takes its head). -/
theorem queue_capability_contract {T : Type} (q : List T) (v : T) (vs : List T) :
    MsQueue.push q v = q ++ [v] ∧
    MpscQueue.push q v = q ++ [v] ∧
    push_back q v = q ++ [v] ∧
    (∀ m : MutexVecDeque T, m.poisoned = false → (blockingPush m v).isSome = true) ∧
    pushAll (MsQueue.new T) vs = vs ∧
    MsQueue.pop vs = (vs.head?, vs.tail) ∧
    pop_front vs = (vs.head?, vs.tail) ∧
    MpscQueue.pop vs = ((match vs.head? with
      | some x => PopResult.Data x
      | none => PopResult.Empty), vs.tail) := by
  refine ⟨rfl, rfl, rfl, ?_, ?_, ?_, ?_, ?_⟩
  · intro m h
    simp [blockingPush, MutexVecDeque.lock, h]
  · rw [pushAll_eq_append]; simp [MsQueue.new]
  · cases vs <;> rfl
  · cases vs <;> rfl
  · cases vs <;> rfl

/-- Witness for C4 at concrete states and values. -/
theorem queue_capability_contract_witness :
    (MutexVecDeque.new Nat).poisoned = false ∧
    MsQueue.push [1] 2 = [1, 2] ∧
    (blockingPush (MutexVecDeque.new Nat) 2).isSome = true ∧
    MsQueue.pop [1, 2] = (some 1, [2]) := by
  have h := queue_capability_contract ([1] : List Nat) 2 ([1, 2] : List Nat)
  exact ⟨rfl, h.1, h.2.2.2.1 (MutexVecDeque.new Nat) rfl, by simpa using h.2.2.2.2.2.1⟩

/-- C7: each benchmark function reports the elapsed wall-clock duration,
converted to nanoseconds as seconds times `10^9` plus the sub-second
nanosecond component, divided by the total operation count
`COUNT * THREADS` = 2,000,000 (the `f64` arithmetic of `nanos` modelled as
exact rational arithmetic). -/
theorem bench_report_nanos_per_op (d : Duration) :
    nanos d = (d.secs : ℚ) * 10 ^ 9 + (d.subsec_nanos : ℚ) ∧
    benchReport d = ((d.secs : ℚ) * 10 ^ 9 + (d.subsec_nanos : ℚ)) / ((COUNT * THREADS : Nat) : ℚ) ∧
    COUNT * THREADS = 2000000 := by
  refine ⟨by norm_num [nanos], by norm_num [benchReport, nanos], by norm_num [COUNT, THREADS]⟩

/-- C8: in the mpsc benchmark every producer task pushes exactly
`COUNT` = 1,000,000 values, namely `0` through `COUNT - 1` in strictly
increasing order, and `THREADS` = 2 such tasks are spawned, so
`COUNT * THREADS` = 2,000,000 push calls are made in total. -/
theorem producer_push_count :
    producerPushes.length = COUNT ∧
    List.Pairwise (· < ·) producerPushes ∧
    (∀ i : Nat, producerPushes[i]? = if i < COUNT then some i else none) ∧
    allProducerPushes.length = THREADS ∧
    (allProducerPushes.map List.length).sum = COUNT * THREADS ∧
    COUNT = 1000000 ∧ THREADS = 2 ∧ COUNT * THREADS = 2000000 := by
  refine ⟨List.length_range COUNT, List.pairwise_lt_range COUNT, ?_, ?_, ?_, rfl, rfl, by norm_num [COUNT, THREADS]⟩
  · intro i
    by_cases h : i < COUNT
    · rw [if_pos h]
      exact List.getElem?_range h
    · rw [if_neg h]
      exact List.getElem?_eq_none (by simpa [producerPushes, Nat.not_lt] using h)
  · exact List.length_replicate THREADS producerPushes
  · rw [allProducerPushes, List.map_replicate, List.sum_replicate, producerPushes,
      List.length_range, smul_eq_mul, Nat.mul_comm]

/-- C9: for the blocking queue adapter, pushing `v` onto an empty queue and
then popping once yields `Some v` and leaves the queue empty again; a second
pop then yields `None`. -/
theorem blocking_push_pop_round_trip {T : Type} (v : T) :
    blockingPush (MutexVecDeque.new T) v = some ⟨false, [v]⟩ ∧
    blockingPop ⟨false, [v]⟩ = some (some v, MutexVecDeque.new T) ∧
    blockingPop (MutexVecDeque.new T) = some (none, MutexVecDeque.new T) :=
  ⟨rfl, rfl, rfl⟩

/-- C10: the blocking adapter's `push` and `pop` both `unwrap` the result of
`lock()`; when the mutex is not poisoned, the panic branch of that `unwrap`
is unreachable and both operations complete without panicking (the model
returns `some`, never the `none` that stands for the panic). -/
theorem blocking_unwrap_no_panic {T : Type} (m : MutexVecDeque T) (v : T)
    (h : m.poisoned = false) :
    (blockingPush m v).isSome = true ∧ (blockingPop m).isSome = true := by
  constructor
  · simp [blockingPush, MutexVecDeque.lock, h]
  · simp [blockingPop, MutexVecDeque.lock, h]

/-- Witness for C10 at a concrete unpoisoned queue. -/
theorem blocking_unwrap_no_panic_witness :
    (MutexVecDeque.new Nat).poisoned = false ∧
    (blockingPush (MutexVecDeque.new Nat) 7).isSome = true ∧
    (blockingPop (MutexVecDeque.new Nat)).isSome = true :=
  ⟨rfl, (blocking_unwrap_no_panic (MutexVecDeque.new Nat) 7 rfl).1,
    (blocking_unwrap_no_panic (MutexVecDeque.new Nat) 7 rfl).2⟩

theorem consumerLoop_some_iff {T : Type} (target : Nat) (rs : List (Option T)) :
    ∀ count n, consumerLoop target rs count = some n ↔
      (count + countSome (List.take n rs) = max target count ∧
       ∀ m, m < n → count + countSome (List.take m rs) < target) := by
  induction rs with
  | nil =>
    intro count n
    rw [consumerLoop]
    by_cases h : target ≤ count
    · simp only [if_pos h, List.take_nil, countSome_nil, Nat.add_zero, Option.some.injEq]
      constructor
      · intro hn
        subst hn
        exact ⟨by omega, fun m hm => absurd hm (by omega)⟩
      · rintro ⟨h1, h2⟩
        by_contra hne
        have := h2 0 (Nat.pos_of_ne_zero fun hh => hne hh.symm)
        omega
    · simp only [if_neg h, List.take_nil, countSome_nil, Nat.add_zero]
      constructor
      · intro hn
        exact absurd hn (by simp)
      · rintro ⟨h1, _⟩
        exfalso
        omega
  | cons r rest ih =>
    intro count n
    rw [consumerLoop]
    by_cases h : target ≤ count
    · simp only [if_pos h, Option.some.injEq]
      constructor
      · intro hn
        subst hn
        refine ⟨by rw [List.take_zero, countSome_nil]; omega, fun m hm => absurd hm (by omega)⟩
      · rintro ⟨h1, h2⟩
        by_contra hne
        have h0 := h2 0 (Nat.pos_of_ne_zero fun hh => hne hh.symm)
        rw [List.take_zero, countSome_nil] at h0
        omega
    · simp only [if_neg h]
      have hb : (if (r.isSome : Bool) = true then 1 else 0) ≤ 1 := by
        split
        · omega
        · omega
      cases n with
      | zero =>
        constructor
        · intro hn
          rcases hx : consumerLoop target rest (count + if r.isSome then 1 else 0) with _ | n'
          · rw [hx] at hn
            simp at hn
          · rw [hx] at hn
            simp at hn
        · rintro ⟨h1, _⟩
          exfalso
          rw [List.take_zero, countSome_nil] at h1
          omega
      | succ n' =>
        constructor
        · intro hn
          rcases Option.map_eq_some'.mp hn with ⟨a, ha, hae⟩
          have ha' : consumerLoop target rest (count + if r.isSome then 1 else 0) = some n' := by
            have : a = n' := by omega
            rwa [this] at ha
          rcases (ih _ n').mp ha' with ⟨h1, h2⟩
          constructor
          · rw [List.take_succ_cons, countSome_cons]
            omega
          · intro m hm
            cases m with
            | zero =>
              rw [List.take_zero, countSome_nil]
              omega
            | succ m' =>
              rw [List.take_succ_cons, countSome_cons]
              have := h2 m' (by omega)
              omega
        · rintro ⟨h1, h2⟩
          rw [List.take_succ_cons, countSome_cons] at h1
          have h1' : count + (if r.isSome then 1 else 0) + countSome (List.take n' rest) =
              max target (count + if r.isSome then 1 else 0) := by omega
          have h2' : ∀ m, m < n' →
              count + (if r.isSome then 1 else 0) + countSome (List.take m rest) < target := by
            intro m hm
            have h3 := h2 (m + 1) (by omega)
            rw [List.take_succ_cons, countSome_cons] at h3
            omega
          rw [(ih _ n').mpr ⟨h1', h2'⟩]
          rfl

/-- C6: the mpsc benchmark's consumer loop terminates exactly when
`COUNT * THREADS` = 2,000,000 pops have returned a value: each pop result
that is `Some` increments the count by one, a `None` result does not, and
the loop exits as soon as the count reaches `COUNT * THREADS` — it runs for
`n` iterations iff the first `n` pop results contain exactly
`COUNT * THREADS` `Some`s and every proper prefix contains fewer. -/
theorem bench_mpsc_consumer_loop {T : Type} (rs : List (Option T)) (n : Nat) :
    COUNT * THREADS = 2000000 ∧
    (consumerLoop (COUNT * THREADS) rs 0 = some n ↔
      (countSome (List.take n rs) = COUNT * THREADS ∧
       ∀ m, m < n → countSome (List.take m rs) < COUNT * THREADS)) := by
  refine ⟨by norm_num [COUNT, THREADS], ?_⟩
  have h := consumerLoop_some_iff (COUNT * THREADS) rs 0 n
  simpa using h

theorem countSome_replicate_some {T : Type} (k : Nat) (v : T) :
    countSome (List.replicate k (some v)) = k := by
  induction k with
  | zero => rfl
  | succ k ih =>
    have hv : (some v).isSome = true := rfl
    rw [List.replicate_succ, countSome_cons, ih, if_pos hv]
    omega

/-- Witness for C6 at a concrete trace: on a trace of 2,000,000 consecutive
`Some` results the loop runs exactly 2,000,000 iterations. -/
theorem bench_mpsc_consumer_loop_witness :
    consumerLoop (COUNT * THREADS) (List.replicate 2000000 (some 0) : List (Option Nat)) 0 =
      some 2000000 := by
  have hct : COUNT * THREADS = 2000000 :=
    (bench_mpsc_consumer_loop (List.replicate 2000000 (some 0) : List (Option Nat)) 2000000).1
  refine ((bench_mpsc_consumer_loop (List.replicate 2000000 (some 0) : List (Option Nat))
    2000000).2).mpr ⟨?_, ?_⟩
  · rw [List.take_replicate, Nat.min_self, countSome_replicate_some, hct]
  · intro m hm
    rw [List.take_replicate, hct, Nat.min_eq_left (Nat.le_of_lt hm), countSome_replicate_some]
    exact hm

end CrossbeamBench
